import Mathlib

/-!
Verification of the core graph-construction and dependency-resolution pipeline
of the `structura` repository (`src/lib/graph-builder.ts`, `src/lib/parser.ts`,
`src/lib/utils.ts`, and the heuristic module analyzer in
`src/components/StructuraGraph.tsx`).

The TypeScript sources are embedded shallowly: JavaScript strings become Lean
`String`s (manipulated through their underlying `List Char`, which matches
JavaScript's sequence-of-code-units view for the ASCII inputs at stake),
`Array`s become `List`s, JavaScript `Set`s (which iterate in insertion order)
become insertion-ordered duplicate-free lists, and `null`/`undefined` become
`Option`.
-/

namespace Structura

/-! ## Character-level string utilities

JavaScript's `String.prototype.split(sep)`, `Array.prototype.join(sep)`,
`includes`, `startsWith`, `endsWith`, `slice` and `toLowerCase` are modelled
character-wise on `String.data`.
-/

/-- `splitChars sep cs` is JavaScript `cs.split(sep)` for a one-character
separator: `"" ↦ [""]`, `"a//b" ↦ ["a","","b"]`, `"/" ↦ ["",""]`. -/
def splitChars (sep : Char) : List Char → List (List Char)
  | [] => [[]]
  | c :: rest =>
    match splitChars sep rest with
    | [] => [[]]
    | h :: t => if c = sep then [] :: h :: t else (c :: h) :: t

/-- `joinSep sep ls` is JavaScript `ls.join(sep)` for a one-character
separator. -/
def joinSep (sep : Char) : List (List Char) → List Char
  | [] => []
  | [a] => a
  | a :: b :: rest => a ++ sep :: joinSep sep (b :: rest)

/-- Split of a string into `/`-separated segments, as `String`s. -/
def segs (s : String) : List String :=
  (splitChars '/' s.data).map String.mk

/-- Join a list of segments with `/`, as a `String`. -/
def joinSegs (l : List String) : String :=
  String.mk (joinSep '/' (l.map String.data))

/-- JavaScript `s.includes(pat)` (substring containment). -/
def isInfixChars : List Char → List Char → Bool
  | p, [] => p.isEmpty
  | p, c :: t => p.isPrefixOf (c :: t) || isInfixChars p t

/-- JavaScript `s.includes(pat)`. -/
def containsSub (s pat : String) : Bool := isInfixChars pat.data s.data

/-- JavaScript `s.startsWith(pre)`. -/
def startsWithStr (s pre : String) : Bool := pre.data.isPrefixOf s.data

/-- JavaScript `s.endsWith(suf)`. -/
def endsWithStr (s suf : String) : Bool := suf.data.isSuffixOf s.data

/-- JavaScript `s.slice(n)` (drop the first `n` code units). -/
def dropStr (s : String) (n : Nat) : String := String.mk (s.data.drop n)

/-- JavaScript `s.toLowerCase()`, restricted to the ASCII case mapping. -/
def toLowerStr (s : String) : String := String.mk (s.data.map Char.toLower)

theorem splitChars_ne_nil (sep : Char) (cs : List Char) : splitChars sep cs ≠ [] := by
  cases cs with
  | nil => simp [splitChars]
  | cons c rest =>
    simp only [splitChars]
    cases h : splitChars sep rest with
    | nil => simp
    | cons h t =>
      by_cases hc : c = sep <;> simp [hc]

theorem sep_not_mem_of_mem_splitChars {sep : Char} {cs l : List Char}
    (hl : l ∈ splitChars sep cs) : sep ∉ l := by
  induction cs generalizing l with
  | nil =>
    simp only [splitChars, List.mem_singleton] at hl
    subst hl; simp
  | cons c rest ih =>
    simp only [splitChars] at hl
    cases hsplit : splitChars sep rest with
    | nil => exact absurd hsplit (splitChars_ne_nil sep rest)
    | cons h t =>
      rw [hsplit] at hl
      by_cases hc : c = sep
      · simp only [if_pos hc, List.mem_cons] at hl
        rcases hl with rfl | rfl | hl
        · simp
        · exact ih (by rw [hsplit]; exact List.mem_cons_self _ _)
        · exact ih (by rw [hsplit]; exact List.mem_cons_of_mem _ hl)
      · simp only [if_neg hc, List.mem_cons] at hl
        rcases hl with rfl | hl
        · intro hmem
          rcases List.mem_cons.mp hmem with heq | hmem2
          · exact hc heq.symm
          · exact (ih (by rw [hsplit]; exact List.mem_cons_self h t)) hmem2
        · exact ih (by rw [hsplit]; exact List.mem_cons_of_mem h hl)

theorem splitChars_of_not_mem {sep : Char} {cs : List Char} (h : sep ∉ cs) :
    splitChars sep cs = [cs] := by
  induction cs with
  | nil => simp [splitChars]
  | cons c rest ih =>
    have hc : c ≠ sep := fun hc => h (hc ▸ List.mem_cons_self c rest)
    have hrest : sep ∉ rest := fun hm => h (List.mem_cons_of_mem c hm)
    simp [splitChars, ih hrest, if_neg hc]

theorem splitChars_append_sep {sep : Char} {a rest : List Char} (h : sep ∉ a) :
    splitChars sep (a ++ sep :: rest) = a :: splitChars sep rest := by
  induction a with
  | nil =>
    simp only [List.nil_append, splitChars]
    cases hsplit : splitChars sep rest with
    | nil => exact absurd hsplit (splitChars_ne_nil sep rest)
    | cons h' t => simp
  | cons c a' ih =>
    have hc : c ≠ sep := fun hc => h (hc ▸ List.mem_cons_self c a')
    have ha' : sep ∉ a' := fun hm => h (List.mem_cons_of_mem c hm)
    simp only [List.cons_append, splitChars, List.append_eq]
    rw [ih ha']
    simp [if_neg hc]

theorem splitChars_joinSep {sep : Char} {ls : List (List Char)}
    (h : ∀ l ∈ ls, sep ∉ l) (hne : ls ≠ []) :
    splitChars sep (joinSep sep ls) = ls := by
  induction ls with
  | nil => exact absurd rfl hne
  | cons a ls' ih =>
    cases ls' with
    | nil =>
      simp only [joinSep]
      exact splitChars_of_not_mem (h a (List.mem_cons_self a []))
    | cons b rest =>
      have ha : sep ∉ a := h a (List.mem_cons_self a _)
      have htail : ∀ l ∈ b :: rest, sep ∉ l := fun l hl => h l (List.mem_cons_of_mem a hl)
      simp only [joinSep]
      rw [splitChars_append_sep ha, ih htail (by simp)]

theorem segs_ne_nil (s : String) : segs s ≠ [] := by
  simp only [segs, ne_eq, List.map_eq_nil_iff]
  exact splitChars_ne_nil '/' s.data

theorem slash_not_mem_of_mem_segs {s x : String} (hx : x ∈ segs s) : '/' ∉ x.data := by
  simp only [segs, List.mem_map] at hx
  obtain ⟨cs, hcs, rfl⟩ := hx
  exact sep_not_mem_of_mem_splitChars hcs

theorem segs_joinSegs {l : List String} (hne : l ≠ [])
    (h : ∀ s ∈ l, '/' ∉ s.data) : segs (joinSegs l) = l := by
  have h1 : ∀ cs ∈ l.map String.data, '/' ∉ cs := by
    intro cs hcs
    simp only [List.mem_map] at hcs
    obtain ⟨s, hs, rfl⟩ := hcs
    exact h s hs
  have h2 : l.map String.data ≠ [] := by simpa using hne
  simp only [segs, joinSegs]
  rw [splitChars_joinSep h1 h2, List.map_map]
  exact List.map_id'' (fun s => rfl) l

/-! ## Data model (`src/lib/types.ts`) -/

/-- One record of the GitHub flat tree listing (`GitHubTreeItemSchema`);
only the fields the pipeline reads are carried. `type` is `"blob"`,
`"tree"` or `"commit"`. -/
structure GitHubTreeItem where
  path : String
  type : String
  size : Option Nat
deriving DecidableEq, Repr

/-- The closed module-type enum (`ModuleTypeSchema`). -/
inductive ModuleType where
  | api | frontend | database | config | test | docs | lib | unknown
deriving DecidableEq, Repr

/-- `"file" | "folder"` on a graph node. -/
inductive NodeKind where
  | file | folder
deriving DecidableEq, Repr

/-- `"hierarchy" | "dependency"` on a graph link. -/
inductive LinkKind where
  | hierarchy | dependency
deriving DecidableEq, Repr

/-- A graph vertex (`GraphNodeSchema`). -/
structure GraphNode where
  id : String
  name : String
  path : String
  type : NodeKind
  moduleType : ModuleType
  size : Option Nat
  extension : Option String
  depth : Nat
  color : String
deriving DecidableEq, Repr

/-- A graph edge (`GraphLinkSchema`). -/
structure GraphLink where
  source : String
  target : String
  type : LinkKind
deriving DecidableEq, Repr

/-- The graph aggregate (`GraphDataSchema`). -/
structure GraphData where
  nodes : List GraphNode
  links : List GraphLink
deriving DecidableEq, Repr

/-- A module summary (`ModuleAnalysisSchema`); `recommendations` is an
optional field. -/
structure ModuleAnalysis where
  name : String
  type : ModuleType
  description : String
  files : List String
  entryPoints : List String
  recommendations : Option (List String)
deriving DecidableEq, Repr

/-! ## Module Classifier (`detectModuleType` in `src/lib/utils.ts`) -/

/-- Rule 1 of `detectModuleType`: the regex
`/\.(test|spec)\.(ts|tsx|js|jsx)$/` (equivalently, one of the eight
unfolded suffixes at the end of the string) or a `__tests__` substring. -/
def isTestRule (lower : String) : Bool :=
  ([".test.ts", ".test.tsx", ".test.js", ".test.jsx",
    ".spec.ts", ".spec.tsx", ".spec.js", ".spec.jsx"].any
      (fun suf => endsWithStr lower suf))
  || containsSub lower "__tests__"

/-- Rule 2 of `detectModuleType` (api). -/
def isApiRule (lower : String) : Bool :=
  containsSub lower "/api/" || containsSub lower "/routes/" ||
  containsSub lower "/controllers/" || containsSub lower "/handlers/" ||
  containsSub lower "server."

/-- Rule 3 of `detectModuleType` (frontend). -/
def isFrontendRule (lower : String) : Bool :=
  containsSub lower "/components/" || containsSub lower "/pages/" ||
  containsSub lower "/views/" || containsSub lower "/app/" ||
  endsWithStr lower ".tsx" || endsWithStr lower ".jsx" ||
  endsWithStr lower ".vue" || endsWithStr lower ".svelte"

/-- Rule 4 of `detectModuleType` (database). -/
def isDatabaseRule (lower : String) : Bool :=
  containsSub lower "/models/" || containsSub lower "/schema/" ||
  containsSub lower "/migrations/" || containsSub lower "/prisma/" ||
  containsSub lower "/drizzle/" || endsWithStr lower ".sql"

/-- Rule 5 of `detectModuleType` (config). -/
def isConfigRule (lower : String) : Bool :=
  containsSub lower "config" || endsWithStr lower ".json" ||
  endsWithStr lower ".yaml" || endsWithStr lower ".yml" ||
  endsWithStr lower ".toml" || endsWithStr lower ".env" ||
  containsSub lower "dockerfile"

/-- Rule 6 of `detectModuleType` (docs). -/
def isDocsRule (lower : String) : Bool :=
  endsWithStr lower ".md" || containsSub lower "/docs/"

/-- Rule 7 of `detectModuleType` (lib). -/
def isLibRule (lower : String) : Bool :=
  containsSub lower "/lib/" || containsSub lower "/utils/" ||
  containsSub lower "/helpers/"

/-- `detectModuleType` from `src/lib/utils.ts`: lower-cases the path and
evaluates the rules in priority order, first match winning, defaulting to
`unknown`. -/
def detectModuleType (path : String) : ModuleType :=
  let lower := toLowerStr path
  if isTestRule lower then ModuleType.test
  else if isApiRule lower then ModuleType.api
  else if isFrontendRule lower then ModuleType.frontend
  else if isDatabaseRule lower then ModuleType.database
  else if isConfigRule lower then ModuleType.config
  else if isDocsRule lower then ModuleType.docs
  else if isLibRule lower then ModuleType.lib
  else ModuleType.unknown

/-! ## Colors (`src/lib/utils.ts`) -/

/-- Association-list lookup, modelling `record[key]` returning
`undefined` on a missing key. -/
def lookupStr (m : List (String × String)) (k : String) : Option String :=
  (m.find? (fun p => p.1 == k)).map (fun p => p.2)

/-- The `colors` record inside `getExtensionColor`. -/
def extensionColors : List (String × String) :=
  [("ts", "#3178c6"), ("tsx", "#3178c6"), ("js", "#f7df1e"), ("jsx", "#f7df1e"),
   ("py", "#3776ab"), ("rs", "#dea584"), ("go", "#00add8"), ("java", "#b07219"),
   ("rb", "#cc342d"), ("php", "#4f5d95"), ("css", "#563d7c"), ("scss", "#c6538c"),
   ("html", "#e34c26"), ("json", "#292929"), ("md", "#083fa1"), ("yaml", "#cb171e"),
   ("yml", "#cb171e"), ("toml", "#9c4121"), ("sql", "#e38c00"), ("sh", "#89e051"),
   ("dockerfile", "#384d54"), ("vue", "#41b883"), ("svelte", "#ff3e00")]

/-- `getExtensionColor` from `src/lib/utils.ts`:
`filename.split(".").pop()?.toLowerCase() ?? ""` looked up with fallback
`"#6b7280"`. -/
def getExtensionColor (filename : String) : String :=
  let ext := toLowerStr (String.mk ((splitChars '.' filename.data).getLastD []))
  (lookupStr extensionColors ext).getD "#6b7280"

/-- The string name of a module type, as used for record keys in the
TypeScript source. -/
def moduleTypeName : ModuleType → String
  | ModuleType.api => "api"
  | ModuleType.frontend => "frontend"
  | ModuleType.database => "database"
  | ModuleType.config => "config"
  | ModuleType.test => "test"
  | ModuleType.docs => "docs"
  | ModuleType.lib => "lib"
  | ModuleType.unknown => "unknown"

/-- `MODULE_COLORS` from `src/lib/utils.ts`. -/
def MODULE_COLORS : List (String × String) :=
  [("api", "#ef4444"), ("frontend", "#3b82f6"), ("database", "#f59e0b"),
   ("config", "#6b7280"), ("test", "#8b5cf6"), ("docs", "#10b981"),
   ("lib", "#06b6d4"), ("unknown", "#9ca3af")]

/-! ## Graph Builder (`buildGraph` in `src/lib/graph-builder.ts`) -/

/-- The root node pushed first by `buildGraph`. -/
def rootNode : GraphNode :=
  ⟨".", "root", ".", NodeKind.folder, ModuleType.unknown, none, none, 0, "#ffffff"⟩

/-- The folder node emitted for a folder path: name is the last segment,
depth the segment count, color looked up in `MODULE_COLORS` with fallback
`"#9ca3af"`. -/
def mkFolderNode (folderPath : String) : GraphNode :=
  let parts := segs folderPath
  let name := parts.getLastD ""
  let moduleType := detectModuleType folderPath
  ⟨folderPath, name, folderPath, NodeKind.folder, moduleType, none, none,
   parts.length, (lookupStr MODULE_COLORS (moduleTypeName moduleType)).getD "#9ca3af"⟩

/-- The file node emitted for a `blob` entry: extension is
`name.split(".").pop() ?? ""`, color from `getExtensionColor`. -/
def mkFileNode (item : GitHubTreeItem) : GraphNode :=
  let parts := segs item.path
  let name := parts.getLastD ""
  let ext := String.mk ((splitChars '.' name.data).getLastD [])
  ⟨item.path, name, item.path, NodeKind.file, detectModuleType item.path,
   item.size, some ext, parts.length, getExtensionColor name⟩

/-- `parts.length > 1 ? parts.slice(0, -1).join("/") : "."` — the parent
path used for hierarchy links (and the claims' parent-prefix notion). -/
def parentOf (p : String) : String :=
  let parts := segs p
  if parts.length > 1 then joinSegs parts.dropLast else "."

/-- The hierarchy link pushed for a node whose id is `target`. -/
def hierLink (target : String) : GraphLink :=
  ⟨parentOf target, target, LinkKind.hierarchy⟩

/-- The non-empty proper segment-prefix joins of an entry path, in the
order the `for (let i = 1; i < parts.length; i++)` loop adds them. -/
def properPrefs (path : String) : List String :=
  let parts := segs path
  (List.range (parts.length - 1)).map (fun i => joinSegs (parts.take (i + 1)))

/-- `Set.add`: append if absent (JavaScript `Set`s iterate in insertion
order). -/
def insertUnique (l : List String) (s : String) : List String :=
  if s ∈ l then l else l ++ [s]

/-- The contents of `folderSet` after the first loop of `buildGraph`, in
insertion order. -/
def folderList (treeItems : List GitHubTreeItem) : List String :=
  treeItems.foldl (fun acc it => (properPrefs it.path).foldl insertUnique acc) []

/-- `buildGraph` from `src/lib/graph-builder.ts`: root node, then one
folder node plus hierarchy link per collected folder path, then one file
node plus hierarchy link per `blob` entry. -/
def buildGraph (treeItems : List GitHubTreeItem) : GraphData :=
  let folders := folderList treeItems
  let blobs := treeItems.filter (fun it => it.type == "blob")
  ⟨rootNode :: (folders.map mkFolderNode ++ blobs.map mkFileNode),
   folders.map hierLink ++ blobs.map (fun it => hierLink it.path)⟩

/-! ## Dependency Linker (`addDependencyLinks` in `src/lib/graph-builder.ts`) -/

/-- The dedup key `` `${source}->${target}` ``. -/
def depKey (source target : String) : String := source ++ "->" ++ target

/-- The dedup key of an existing link. -/
def linkKey (l : GraphLink) : String := depKey l.source l.target

/-- One iteration of the `for (const dep of dependencies)` loop: the
accumulator carries the `newLinks` array and the `existingLinks` key set. -/
def depStep (nodeIds : List String) (acc : List GraphLink × List String)
    (dep : String × String) : List GraphLink × List String :=
  if dep.1 ∈ nodeIds ∧ dep.2 ∈ nodeIds ∧ depKey dep.1 dep.2 ∉ acc.2 then
    (acc.1 ++ [⟨dep.1, dep.2, LinkKind.dependency⟩], acc.2 ++ [depKey dep.1 dep.2])
  else acc

/-- `addDependencyLinks` from `src/lib/graph-builder.ts`. -/
def addDependencyLinks (graph : GraphData)
    (dependencies : List (String × String)) : GraphData :=
  let nodeIds := graph.nodes.map GraphNode.id
  let result := dependencies.foldl (depStep nodeIds) ([], graph.links.map linkKey)
  ⟨graph.nodes, graph.links ++ result.1⟩

/-! ## Module Grouper (`groupIntoModules` in `src/lib/graph-builder.ts`) -/

/-- Insertion into the `groups` record: JavaScript object keys enumerate
in insertion order, so the record is an insertion-ordered association
list and a repeated key appends to its file list. -/
def addToGroups (gs : List (ModuleType × List String)) (k : ModuleType)
    (p : String) : List (ModuleType × List String) :=
  if gs.any (fun g => g.1 == k) then
    gs.map (fun g => if g.1 == k then (g.1, g.2 ++ [p]) else g)
  else gs ++ [(k, [p])]

/-- The `moduleNames` record inside `groupIntoModules`. -/
def moduleNames : List (String × String) :=
  [("api", "API Layer"), ("frontend", "Frontend / UI"), ("database", "Database Layer"),
   ("config", "Configuration"), ("test", "Tests"), ("docs", "Documentation"),
   ("lib", "Shared Libraries"), ("unknown", "Other Files")]

/-- `groupIntoModules` from `src/lib/graph-builder.ts`: groups file-node
paths by module type and emits one summary per group — with
`entryPoints: []` and no `recommendations` field. -/
def groupIntoModules (nodes : List GraphNode) : List ModuleAnalysis :=
  let groups := nodes.foldl
    (fun gs n => if n.type == NodeKind.file then addToGroups gs n.moduleType n.path else gs) []
  groups.map (fun g =>
    let tyName := moduleTypeName g.1
    ⟨(lookupStr moduleNames tyName).getD tyName, g.1,
     toString g.2.length ++ " files detected as " ++ tyName, g.2, [], none⟩)

/-! ## Heuristic module analyzer
(`heuristicModuleAnalysis` in `src/components/StructuraGraph.tsx`) -/

/-- The `descriptions` record inside `heuristicModuleAnalysis`. -/
def heuristicDescription : ModuleType → String
  | ModuleType.api => "Server-side API endpoints and request handlers"
  | ModuleType.frontend => "Client-side UI components and pages"
  | ModuleType.database => "Database schemas, models, and migrations"
  | ModuleType.config => "Project configuration and environment setup"
  | ModuleType.test => "Test suites and testing utilities"
  | ModuleType.docs => "Documentation and guides"
  | ModuleType.lib => "Shared utilities and helper functions"
  | ModuleType.unknown => "Miscellaneous project files"

/-- The `entryPatterns` stems of `heuristicModuleAnalysis`. -/
def entryPatterns : List String :=
  ["index.", "main.", "app.", "server.", "route.", "page."]

/-- `heuristicModuleAnalysis` from `src/components/StructuraGraph.tsx`:
filters the files whose final path segment starts with an entry-point
stem and caps the result at 5. -/
def heuristicModuleAnalysis (name : String) (type : ModuleType)
    (files : List String) : ModuleAnalysis :=
  let entryPts := files.filter (fun f =>
    entryPatterns.any (fun p =>
      startsWithStr (String.mk ((splitChars '/' f.data).getLastD [])) p))
  ⟨name, type, heuristicDescription type, files, entryPts.take 5, some []⟩

/-- The entry-point subset described by the spec for the Module Grouper:
files whose final path segment starts with one of the fixed stems, capped
to the first 5 matches in input order. -/
def stemEntryPoints (files : List String) : List String :=
  (files.filter (fun f =>
    entryPatterns.any (fun p =>
      startsWithStr (String.mk ((splitChars '/' f.data).getLastD [])) p))).take 5

/-! ## Import Resolver (`resolveImportPath` in `src/lib/parser.ts`) -/

/-- The fixed suffix-candidate list (`extensions` in `resolveImportPath`):
the bare string first, then extensions, then index files. -/
def resolveExtensions : List String :=
  ["", ".ts", ".tsx", ".js", ".jsx", ".mjs",
   "/index.ts", "/index.tsx", "/index.js", "/index.jsx"]

/-- `resolveImportPath` from `src/lib/parser.ts`: external targets fail
immediately; `@/` is rewritten to `src/`, `~/` stripped, relative targets
resolved against the source directory by a segment-stack walk
(`dirParts.pop()` on `..`, no-op on `.`, push otherwise, after
`filter(Boolean)` on the directory segments); then the first candidate
contained in `allPaths` wins. -/
def resolveImportPath (sourcePath importPath : String)
    (allPaths : List String) : Option String :=
  if !(startsWithStr importPath "." || startsWithStr importPath "@/" ||
       startsWithStr importPath "~/") then
    none
  else
    let resolved :=
      if startsWithStr importPath "@/" then "src/" ++ dropStr importPath 2
      else if startsWithStr importPath "~/" then dropStr importPath 2
      else if startsWithStr importPath "." then
        let sourceDir := joinSegs (segs sourcePath).dropLast
        let parts := segs importPath
        let dirParts := (segs sourceDir).filter (fun s => s ≠ "")
        joinSegs (parts.foldl (fun dps part =>
          if part = ".." then dps.dropLast
          else if part = "." then dps
          else dps ++ [part]) dirParts)
      else importPath
    (resolveExtensions.map (fun e => resolved ++ e)).find?
      (fun c => allPaths.contains c)

/-- Spec-side rewrite step (§4.3 steps 2–3 of the design): alias rewrite
for `@/` and `~/`, and the segment-stack walk against the source
directory's (non-empty) segments for `.`-prefixed targets. -/
def specRewrite (sourcePath importPath : String) : String :=
  if startsWithStr importPath "@/" then "src/" ++ dropStr importPath 2
  else if startsWithStr importPath "~/" then dropStr importPath 2
  else if startsWithStr importPath "." then
    let dirSegs := ((segs sourcePath).dropLast).filter (fun s => s ≠ "")
    joinSegs ((segs importPath).foldl (fun dps part =>
      if part = ".." then dps.dropLast
      else if part = "." then dps
      else dps ++ [part]) dirSegs)
  else importPath

/-- Spec-side candidate generation (§4.3 step 4): the resolved string
bare, then each fixed suffix appended in order. -/
def specCandidates (resolved : String) : List String :=
  resolveExtensions.map (fun e => resolved ++ e)

/-- Spec-side resolver (§4.3): external targets fail, otherwise the first
candidate present in the known path set wins. -/
def specResolve (sourcePath importPath : String)
    (allPaths : List String) : Option String :=
  if startsWithStr importPath "." || startsWithStr importPath "@/" ||
     startsWithStr importPath "~/" then
    (specCandidates (specRewrite sourcePath importPath)).find?
      (fun c => allPaths.contains c)
  else none

/-! ## Import Parser (`parseImports` in `src/lib/parser.ts`)

The JS-family extractors run JavaScript regexes in a `while (exec)` loop
with the `g` flag. The four patterns used are each of the shape
"pre-pattern, quote, one-or-more non-quote characters (the capture),
quote, post-pattern", where the only quantifiers are greedy `+`/`*`/`?`
over character classes, so a small backtracking matcher over that pattern
algebra reproduces the regex engine's leftmost, greedy-with-backtracking
semantics exactly. -/

/-- A transient parsed dependency (`ParsedDependency`); `type` is
`"import"`, `"require"` or `"dynamic"`. -/
structure ParsedDependency where
  source : String
  target : String
  type : String
deriving DecidableEq, Repr

/-- Pattern algebra covering the regex fragments used by the source:
literals, single class characters, greedy `+`/`*` over a class, greedy
`?`, and sequencing. -/
inductive JsPat where
  | lit : List Char → JsPat
  | many1 : (Char → Bool) → JsPat
  | many0 : (Char → Bool) → JsPat
  | opt : JsPat → JsPat
  | seq : JsPat → JsPat → JsPat

/-- All suffixes remaining after matching a pattern at the head of the
input, in the regex engine's backtracking priority order (greedy first). -/
def patMatches : JsPat → List Char → List (List Char)
  | JsPat.lit ls, cs => if ls.isPrefixOf cs then [cs.drop ls.length] else []
  | JsPat.many1 p, cs =>
    let run := cs.takeWhile p
    (List.range run.length).map (fun k => cs.drop (run.length - k))
  | JsPat.many0 p, cs =>
    let run := cs.takeWhile p
    (List.range (run.length + 1)).map (fun k => cs.drop (run.length - k))
  | JsPat.opt q, cs => patMatches q cs ++ [cs]
  | JsPat.seq a b, cs => (patMatches a cs).flatMap (patMatches b)

/-- Sequencing of a pattern list. -/
def seqJs : List JsPat → JsPat
  | [] => JsPat.lit []
  | [p] => p
  | p :: q :: rest => JsPat.seq p (seqJs (q :: rest))

/-- First successful continuation, in priority order. -/
def firstSome {α β : Type} : List α → (α → Option β) → Option β
  | [], _ => none
  | a :: t, f => match f a with
    | some b => some b
    | none => firstSome t f

/-- `'` or `"` — the `['"]` class. -/
def isQuote (c : Char) : Bool := c = '\'' || c = '"'

/-- JavaScript `\w`: ASCII alphanumerics and underscore. -/
def jsWordChar (c : Char) : Bool := c.isAlphanum || c = '_'

/-- JavaScript `\s`, restricted to its ASCII members. -/
def jsSpaceChar (c : Char) : Bool :=
  c = ' ' || c = '\t' || c = '\n' || c = '\r' || c = '\x0b' || c = '\x0c'

/-- The `[\w*{}\s,]` class of the import-clause group. -/
def importClauseChar (c : Char) : Bool :=
  jsWordChar c || c = '*' || c = '\x7b' || c = '\x7d' || jsSpaceChar c || c = ','

/-- After the pre-pattern: match `['"]([^'"]+)['"]` (deterministic, since
the capture class excludes both quotes) and then the post-pattern;
returns the capture and the suffix after the whole match. -/
def tryCapture (post : JsPat) (cs : List Char) : Option (List Char × List Char) :=
  match cs with
  | [] => none
  | c :: rest =>
    if isQuote c then
      let cap := rest.takeWhile (fun d => !(isQuote d))
      if cap.isEmpty then none
      else
        match rest.drop cap.length with
        | [] => none
        | d :: rest2 =>
          if isQuote d then
            (firstSome (patMatches post rest2) (fun s => some s)).map
              (fun s => (cap, s))
          else none
    else none

/-- Match `pre ['"]([^'"]+)['"] post` at the head of the input,
backtracking through the pre-pattern's alternatives in priority order. -/
def matchPatAt (pre post : JsPat) (cs : List Char) : Option (List Char × List Char) :=
  firstSome (patMatches pre cs) (tryCapture post)

/-- The `while ((match = regex.exec(content)) !== null)` loop with the
`g` flag: scan left to right, restart after each match's end. Fuel-driven;
`length + 1` fuel always suffices since every step consumes input. -/
def scanGo (pre post : JsPat) : Nat → List Char → List String
  | 0, _ => []
  | fuel + 1, cs =>
    match matchPatAt pre post cs with
    | some (cap, rest) => String.mk cap :: scanGo pre post fuel rest
    | none =>
      match cs with
      | [] => []
      | _ :: t => scanGo pre post fuel t

/-- All captures of the pattern over the content, in scan order. -/
def scanAll (pre post : JsPat) (content : String) : List String :=
  scanGo pre post (content.data.length + 1) content.data

/-- The empty post-pattern (the match ends at the closing quote). -/
def emptyPat : JsPat := JsPat.lit []

/-- `/import\s+(?:[\w*{}\s,]+\s+from\s+)?['"]([^'"]+)['"]/g` up to the
opening quote. -/
def esImportPre : JsPat :=
  seqJs [JsPat.lit "import".data, JsPat.many1 jsSpaceChar,
    JsPat.opt (seqJs [JsPat.many1 importClauseChar, JsPat.many1 jsSpaceChar,
      JsPat.lit "from".data, JsPat.many1 jsSpaceChar])]

/-- `/require\s*\(\s*['"]([^'"]+)['"]\s*\)/g` up to the opening quote. -/
def requirePre : JsPat :=
  seqJs [JsPat.lit "require".data, JsPat.many0 jsSpaceChar,
    JsPat.lit "(".data, JsPat.many0 jsSpaceChar]

/-- `\s*\)` after the closing quote of the call-style patterns. -/
def callPost : JsPat :=
  JsPat.seq (JsPat.many0 jsSpaceChar) (JsPat.lit ")".data)

/-- `/import\s*\(\s*['"]([^'"]+)['"]\s*\)/g` up to the opening quote. -/
def dynamicImportPre : JsPat :=
  seqJs [JsPat.lit "import".data, JsPat.many0 jsSpaceChar,
    JsPat.lit "(".data, JsPat.many0 jsSpaceChar]

/-- `/export\s+(?:[\w*{}\s,]+\s+from\s+)['"]([^'"]+)['"]/g` up to the
opening quote (the clause group is not optional here). -/
def reExportPre : JsPat :=
  seqJs [JsPat.lit "export".data, JsPat.many1 jsSpaceChar,
    JsPat.many1 importClauseChar, JsPat.many1 jsSpaceChar,
    JsPat.lit "from".data, JsPat.many1 jsSpaceChar]

/-- `parseJSImports` from `src/lib/parser.ts`: the four scans in source
order (ES import, CommonJS require, dynamic import, re-export). -/
def parseJSImports (filePath content : String) : List ParsedDependency :=
  (scanAll esImportPre emptyPat content).map
      (fun t => ⟨filePath, t, "import"⟩)
    ++ (scanAll requirePre callPost content).map
      (fun t => ⟨filePath, t, "require"⟩)
    ++ (scanAll dynamicImportPre callPost content).map
      (fun t => ⟨filePath, t, "dynamic"⟩)
    ++ (scanAll reExportPre emptyPat content).map
      (fun t => ⟨filePath, t, "import"⟩)

/-- `parseImports` from `src/lib/parser.ts`, restricted to the JS-family
dispatch: extensions `ts/tsx/js/jsx/mjs/cjs/vue/svelte` go to
`parseJSImports`; every other extension yields `[]`. (The source also
dispatches `py`, `go`, `rs` and `java` to language-specific extractors;
those branches are not modelled, since no claim mentions them — for all
remaining extensions the source likewise returns an empty list.) -/
def parseImports (filePath content : String) : List ParsedDependency :=
  let ext := toLowerStr (String.mk ((splitChars '.' filePath.data).getLastD []))
  if ext ∈ (["ts", "tsx", "js", "jsx", "mjs", "cjs", "vue", "svelte"] : List String) then
    parseJSImports filePath content
  else []

/-! ## Derived notions used by the claims -/

/-- Number of hierarchy links of a graph whose target is `t` (the
in-degree of `t` in the hierarchy sub-graph). -/
def hierInDegree (g : GraphData) (t : String) : Nat :=
  (g.links.filter (fun l => l.type == LinkKind.hierarchy && l.target == t)).length

/-! ## Claims -/

theorem dir_filter_eq (sp : String) :
    (segs (joinSegs (segs sp).dropLast)).filter (fun s => !decide (s = "")) =
      ((segs sp).dropLast).filter (fun s => !decide (s = "")) := by
  cases hl : (segs sp).dropLast with
  | nil => decide
  | cons a l' =>
    have hsub : ∀ s ∈ a :: l', '/' ∉ s.data := by
      intro s hs
      have hmem : s ∈ (segs sp).dropLast := hl ▸ hs
      exact slash_not_mem_of_mem_segs
        (List.Sublist.subset (List.dropLast_sublist _) hmem)
    rw [segs_joinSegs (List.cons_ne_nil a l') hsub]

/-- C5: `resolveImportPath` coincides with the spec's resolver algorithm —
alias rewrite (`@/` → `src/`, `~/` stripped), relative segment-stack walk
against the source directory, then the fixed suffix-candidate list tried
in order with first-in-`knownPaths` winning and `none` otherwise; in
particular `src/app/page.tsx` importing `@/lib/utils` resolves to
`src/lib/utils.ts` when that path is known. -/
theorem resolveImportPath_follows_spec :
    (∀ sourcePath importPath : String, ∀ knownPaths : List String,
      resolveImportPath sourcePath importPath knownPaths =
        specResolve sourcePath importPath knownPaths) ∧
    resolveImportPath "src/app/page.tsx" "@/lib/utils"
      ["src/app/page.tsx", "src/lib/utils.ts"] = some "src/lib/utils.ts" := by
  constructor
  · intro sp t kp
    unfold resolveImportPath specResolve specRewrite specCandidates
    by_cases hA : startsWithStr t "." <;> by_cases hB : startsWithStr t "@/" <;>
      by_cases hC : startsWithStr t "~/" <;>
      simp [hA, hB, hC, dir_filter_eq sp]
  · decide

/-- C7: a raw target that starts with none of `.`, `@/`, `~/` (an external
package reference) makes the resolver fail immediately, so external
package imports never produce a dependency edge. -/
theorem resolveImportPath_external_none
    (sourcePath importPath : String) (knownPaths : List String)
    (h1 : startsWithStr importPath "." = false)
    (h2 : startsWithStr importPath "@/" = false)
    (h3 : startsWithStr importPath "~/" = false) :
    resolveImportPath sourcePath importPath knownPaths = none := by
  unfold resolveImportPath
  simp [h1, h2, h3]

theorem resolveImportPath_external_none_witness :
    resolveImportPath "src/a.ts" "react" ["src/a.ts", "src/b.ts"] = none :=
  resolveImportPath_external_none "src/a.ts" "react" ["src/a.ts", "src/b.ts"]
    (by decide) (by decide) (by decide)

/-- C4: `detectModuleType` is a total deterministic function into the
closed `ModuleType` enum that only depends on the lower-cased path
(case-insensitive), evaluates the rules in the fixed priority order with
first match winning (a path satisfying the test rule is classified `test`
regardless of later rules); in particular `src/api/user.test.ts` is
`test` even though it also matches the api rule, and the empty path
defaults to `unknown`. -/
theorem detectModuleType_spec :
    (∀ p q : String, toLowerStr p = toLowerStr q →
      detectModuleType p = detectModuleType q) ∧
    (∀ p : String, isTestRule (toLowerStr p) = true →
      detectModuleType p = ModuleType.test) ∧
    detectModuleType "src/api/user.test.ts" = ModuleType.test ∧
    isApiRule (toLowerStr "src/api/user.test.ts") = true ∧
    detectModuleType "src/api/user.ts" = ModuleType.api ∧
    detectModuleType "" = ModuleType.unknown := by
  refine ⟨?_, ?_, by decide, by decide, by decide, by decide⟩
  · intro p q h
    unfold detectModuleType
    rw [h]
  · intro p h
    unfold detectModuleType
    simp [h]

theorem detectModuleType_spec_witness :
    detectModuleType "SRC/Api/User.TEST.ts" = detectModuleType "src/api/user.test.ts" ∧
    detectModuleType "lib/__tests__/helper.xyz" = ModuleType.test :=
  ⟨detectModuleType_spec.1 "SRC/Api/User.TEST.ts" "src/api/user.test.ts" (by decide),
   detectModuleType_spec.2.1 "lib/__tests__/helper.xyz" (by decide)⟩

/-- C9: `buildGraph` never fails — on the empty entry list it returns
exactly the root sentinel node (id `"."`, depth 0) and no links, and it
is a deterministic pure function of its input (equal entry lists give
structurally identical graphs). -/
theorem buildGraph_empty_deterministic :
    buildGraph [] = ⟨[rootNode], []⟩ ∧
    rootNode.id = "." ∧ rootNode.depth = 0 ∧
    (∀ items1 items2 : List GitHubTreeItem, items1 = items2 →
      buildGraph items1 = buildGraph items2) :=
  ⟨rfl, rfl, rfl, fun _ _ h => h ▸ rfl⟩

theorem buildGraph_empty_deterministic_witness :
    buildGraph [GitHubTreeItem.mk "src/a.ts" "blob" none] =
      buildGraph [GitHubTreeItem.mk "src/a.ts" "blob" none] :=
  buildGraph_empty_deterministic.2.2.2
    [GitHubTreeItem.mk "src/a.ts" "blob" none]
    [GitHubTreeItem.mk "src/a.ts" "blob" none] rfl

/-- C2: the round-trip scenario — for entries `src/a.ts`, `src/b.ts`
(both blobs) where `a.ts` contains `import { x } from './b'`: the graph
has exactly the node ids `.`, `src`, `src/a.ts`, `src/b.ts`; the parser
yields exactly one dependency with raw target `./b`; the resolver maps it
to `src/b.ts` (the `.ts` suffix candidate); and the linker appends
exactly the dependency edge `src/a.ts → src/b.ts`. -/
theorem roundTrip_scenario :
    ((buildGraph [GitHubTreeItem.mk "src/a.ts" "blob" none,
        GitHubTreeItem.mk "src/b.ts" "blob" none]).nodes.map GraphNode.id =
      [".", "src", "src/a.ts", "src/b.ts"]) ∧
    (parseImports "src/a.ts" "import \x7b x \x7d from './b'" =
      [ParsedDependency.mk "src/a.ts" "./b" "import"]) ∧
    (resolveImportPath "src/a.ts" "./b" ["src/a.ts", "src/b.ts"] = some "src/b.ts") ∧
    ((addDependencyLinks
        (buildGraph [GitHubTreeItem.mk "src/a.ts" "blob" none,
          GitHubTreeItem.mk "src/b.ts" "blob" none])
        [("src/a.ts", "src/b.ts")]).links =
      (buildGraph [GitHubTreeItem.mk "src/a.ts" "blob" none,
          GitHubTreeItem.mk "src/b.ts" "blob" none]).links ++
        [GraphLink.mk "src/a.ts" "src/b.ts" LinkKind.dependency]) := by
  refine ⟨by decide, by decide, by decide, by decide⟩

/-- C3 counterexample: the Module Grouper does not compute the stems-based
entry-point subset — on the node set built from the single blob
`index.ts` the resulting summary has `entryPoints = []` although the
stems subset of its files is `["index.ts"]`. -/
theorem groupIntoModules_entryPoints_not_stems :
    ¬ (∀ nodes : List GraphNode, ∀ m ∈ groupIntoModules nodes,
        m.entryPoints = stemEntryPoints m.files) := by
  intro h
  exact absurd
    (h (buildGraph [GitHubTreeItem.mk "index.ts" "blob" none]).nodes
      (ModuleAnalysis.mk "Other Files" ModuleType.unknown
        "1 files detected as unknown" ["index.ts"] [] none)
      (by decide))
    (by decide)

/-- C3 (amended): every ModuleSummary returned by the Module Grouper
(`groupIntoModules`) has an empty `entryPoints` list; the stems-based
computation the claim describes (files whose final segment starts with
`index.`, `main.`, `app.`, `server.`, `route.`, `page.`, capped to the
first 5 in input order) is performed by the heuristic module analyzer
(`heuristicModuleAnalysis` in `StructuraGraph.tsx`), not by the grouper. -/
theorem groupIntoModules_entryPoints_empty :
    (∀ nodes : List GraphNode, ∀ m ∈ groupIntoModules nodes,
      m.entryPoints = ([] : List String)) ∧
    (∀ (name : String) (ty : ModuleType) (files : List String),
      (heuristicModuleAnalysis name ty files).entryPoints = stemEntryPoints files) := by
  constructor
  · intro nodes m hm
    simp only [groupIntoModules, List.mem_map] at hm
    obtain ⟨g, _, rfl⟩ := hm
    rfl
  · intro name ty files
    rfl

theorem groupIntoModules_entryPoints_empty_witness :
    (ModuleAnalysis.mk "Other Files" ModuleType.unknown
      "1 files detected as unknown" ["index.ts"] [] none).entryPoints =
        ([] : List String) ∧
    (heuristicModuleAnalysis "Tests" ModuleType.test
      ["index.ts", "x/main.py", "y.go"]).entryPoints =
        stemEntryPoints ["index.ts", "x/main.py", "y.go"] :=
  ⟨groupIntoModules_entryPoints_empty.1
      (buildGraph [GitHubTreeItem.mk "index.ts" "blob" none]).nodes
      (ModuleAnalysis.mk "Other Files" ModuleType.unknown
        "1 files detected as unknown" ["index.ts"] [] none)
      (by decide),
   groupIntoModules_entryPoints_empty.2 "Tests" ModuleType.test
      ["index.ts", "x/main.py", "y.go"]⟩

theorem depLinker_invariant (ids keys0 : List String)
    (deps : List (String × String)) (acc : List GraphLink × List String)
    (h1 : acc.2 = keys0 ++ acc.1.map linkKey)
    (h2 : ∀ e ∈ acc.1, e.type = LinkKind.dependency ∧ e.source ∈ ids ∧
      e.target ∈ ids ∧ depKey e.source e.target ∉ keys0)
    (h3 : List.Pairwise
      (fun a b => ¬ (a.source = b.source ∧ a.target = b.target)) acc.1) :
    (deps.foldl (depStep ids) acc).2 =
        keys0 ++ (deps.foldl (depStep ids) acc).1.map linkKey ∧
    (∀ e ∈ (deps.foldl (depStep ids) acc).1,
      e.type = LinkKind.dependency ∧ e.source ∈ ids ∧ e.target ∈ ids ∧
        depKey e.source e.target ∉ keys0) ∧
    List.Pairwise (fun a b => ¬ (a.source = b.source ∧ a.target = b.target))
      (deps.foldl (depStep ids) acc).1 := by
  induction deps generalizing acc with
  | nil => exact ⟨h1, h2, h3⟩
  | cons d rest ih =>
    simp only [List.foldl_cons]
    by_cases hc : d.1 ∈ ids ∧ d.2 ∈ ids ∧ depKey d.1 d.2 ∉ acc.2
    · have hstep : depStep ids acc d =
          (acc.1 ++ [GraphLink.mk d.1 d.2 LinkKind.dependency],
           acc.2 ++ [depKey d.1 d.2]) := by
        unfold depStep
        rw [if_pos hc]
      rw [hstep]
      apply ih
      · show acc.2 ++ [depKey d.1 d.2] =
          keys0 ++ (acc.1 ++ [GraphLink.mk d.1 d.2 LinkKind.dependency]).map linkKey
        rw [h1, List.map_append, List.append_assoc]
        rfl
      · intro e he
        rcases List.mem_append.mp he with hmem | hmem
        · exact h2 e hmem
        · have he' : e = GraphLink.mk d.1 d.2 LinkKind.dependency := by
            simpa using hmem
          subst he'
          refine ⟨rfl, hc.1, hc.2.1, fun hk0 => hc.2.2 ?_⟩
          rw [h1]
          exact List.mem_append_left _ hk0
      · refine List.pairwise_append.mpr ⟨h3, by simp, ?_⟩
        intro a ha b hb
        have hb' : b = GraphLink.mk d.1 d.2 LinkKind.dependency := by simpa using hb
        subst hb'
        rintro ⟨hsrc, htgt⟩
        apply hc.2.2
        rw [h1]
        have : linkKey a = depKey d.1 d.2 := by
          simp only [linkKey, hsrc, htgt]
        exact List.mem_append_right _ (this ▸ List.mem_map_of_mem linkKey ha)
    · have hstep : depStep ids acc d = acc := by
        unfold depStep
        rw [if_neg hc]
      rw [hstep]
      exact ih acc h1 h2 h3

/-- C6: the Dependency Linker appends only dependency edges whose two
endpoint ids exist in the node set and for which no edge of any kind with
the same (source, target) direction is already present in the graph, and
it never appends two edges with the same (source, target) pair — so
adding the same resolved pair twice yields exactly one edge, and no edge
is created when an endpoint id is absent. -/
theorem addDependencyLinks_edge_conditions (g : GraphData)
    (deps : List (String × String)) :
    ∃ newLinks : List GraphLink,
      (addDependencyLinks g deps).links = g.links ++ newLinks ∧
      (∀ e ∈ newLinks, e.type = LinkKind.dependency ∧
        e.source ∈ g.nodes.map GraphNode.id ∧
        e.target ∈ g.nodes.map GraphNode.id ∧
        ∀ e' ∈ g.links, ¬ (e'.source = e.source ∧ e'.target = e.target)) ∧
      List.Pairwise
        (fun a b => ¬ (a.source = b.source ∧ a.target = b.target)) newLinks := by
  have h := depLinker_invariant (g.nodes.map GraphNode.id) (g.links.map linkKey)
    deps ([], g.links.map linkKey) (by simp) (by simp) (by simp)
  refine ⟨(deps.foldl (depStep (g.nodes.map GraphNode.id))
      ([], g.links.map linkKey)).1, rfl, ?_, h.2.2⟩
  intro e he
  obtain ⟨ht, hs, htar, hk⟩ := h.2.1 e he
  refine ⟨ht, hs, htar, ?_⟩
  rintro e' he' ⟨hsrc, htgt⟩
  apply hk
  have : linkKey e' = depKey e.source e.target := by
    simp only [linkKey, hsrc, htgt]
  exact this ▸ List.mem_map_of_mem linkKey he'

theorem addDependencyLinks_edge_conditions_witness :
    ∃ newLinks : List GraphLink,
      (addDependencyLinks (buildGraph [GitHubTreeItem.mk "a.ts" "blob" none,
          GitHubTreeItem.mk "b.ts" "blob" none])
        [("a.ts", "b.ts"), ("a.ts", "b.ts"), ("a.ts", "missing")]).links =
        (buildGraph [GitHubTreeItem.mk "a.ts" "blob" none,
          GitHubTreeItem.mk "b.ts" "blob" none]).links ++ newLinks ∧
      (∀ e ∈ newLinks, e.type = LinkKind.dependency ∧
        e.source ∈ (buildGraph [GitHubTreeItem.mk "a.ts" "blob" none,
          GitHubTreeItem.mk "b.ts" "blob" none]).nodes.map GraphNode.id ∧
        e.target ∈ (buildGraph [GitHubTreeItem.mk "a.ts" "blob" none,
          GitHubTreeItem.mk "b.ts" "blob" none]).nodes.map GraphNode.id ∧
        ∀ e' ∈ (buildGraph [GitHubTreeItem.mk "a.ts" "blob" none,
          GitHubTreeItem.mk "b.ts" "blob" none]).links,
          ¬ (e'.source = e.source ∧ e'.target = e.target)) ∧
      List.Pairwise
        (fun a b => ¬ (a.source = b.source ∧ a.target = b.target)) newLinks :=
  addDependencyLinks_edge_conditions
    (buildGraph [GitHubTreeItem.mk "a.ts" "blob" none,
      GitHubTreeItem.mk "b.ts" "blob" none])
    [("a.ts", "b.ts"), ("a.ts", "b.ts"), ("a.ts", "missing")]

/-- C10: the Dependency Linker leaves the node list unchanged and keeps
every pre-existing link unmodified, in order, as a prefix of the output
links, only appending new dependency edges after them. -/
theorem addDependencyLinks_frame (g : GraphData)
    (deps : List (String × String)) :
    (addDependencyLinks g deps).nodes = g.nodes ∧
    ∃ newLinks : List GraphLink,
      (addDependencyLinks g deps).links = g.links ++ newLinks ∧
      ∀ e ∈ newLinks, e.type = LinkKind.dependency := by
  have h := depLinker_invariant (g.nodes.map GraphNode.id) (g.links.map linkKey)
    deps ([], g.links.map linkKey) (by simp) (by simp) (by simp)
  exact ⟨rfl, (deps.foldl (depStep (g.nodes.map GraphNode.id))
      ([], g.links.map linkKey)).1, rfl, fun e he => (h.2.1 e he).1⟩

theorem addDependencyLinks_frame_witness :
    (addDependencyLinks (buildGraph [GitHubTreeItem.mk "a.ts" "blob" none])
      [("a.ts", "a.ts")]).nodes =
      (buildGraph [GitHubTreeItem.mk "a.ts" "blob" none]).nodes ∧
    ∃ newLinks : List GraphLink,
      (addDependencyLinks (buildGraph [GitHubTreeItem.mk "a.ts" "blob" none])
        [("a.ts", "a.ts")]).links =
        (buildGraph [GitHubTreeItem.mk "a.ts" "blob" none]).links ++ newLinks ∧
      ∀ e ∈ newLinks, e.type = LinkKind.dependency :=
  addDependencyLinks_frame (buildGraph [GitHubTreeItem.mk "a.ts" "blob" none])
    [("a.ts", "a.ts")]

theorem mem_insertUnique {acc : List String} {a x : String} :
    x ∈ insertUnique acc a ↔ x ∈ acc ∨ x = a := by
  unfold insertUnique
  by_cases h : a ∈ acc
  · rw [if_pos h]
    constructor
    · exact Or.inl
    · rintro (hx | rfl)
      · exact hx
      · exact h
  · rw [if_neg h]
    simp

theorem mem_foldl_insertUnique (l : List String) (acc : List String) (x : String) :
    x ∈ l.foldl insertUnique acc ↔ x ∈ acc ∨ x ∈ l := by
  induction l generalizing acc with
  | nil => simp
  | cons a t ih =>
    rw [List.foldl_cons, ih, mem_insertUnique]
    simp [or_assoc]

theorem mem_folderList {items : List GitHubTreeItem} {x : String} :
    x ∈ folderList items ↔ ∃ it ∈ items, x ∈ properPrefs it.path := by
  have general : ∀ (l : List GitHubTreeItem) (acc : List String),
      x ∈ l.foldl (fun acc it => (properPrefs it.path).foldl insertUnique acc) acc ↔
        x ∈ acc ∨ ∃ it ∈ l, x ∈ properPrefs it.path := by
    intro l
    induction l with
    | nil => simp
    | cons a t ih =>
      intro acc
      rw [List.foldl_cons, ih, mem_foldl_insertUnique]
      simp [or_assoc]
  have h := general items []
  simpa [folderList] using h

theorem mem_properPrefs {path x : String} :
    x ∈ properPrefs path ↔
      ∃ i, i < (segs path).length - 1 ∧ x = joinSegs ((segs path).take (i + 1)) := by
  simp [properPrefs, List.mem_map, List.mem_range, eq_comm]

theorem segs_joinSegs_take (path : String) (k : Nat) (hk : 1 ≤ k) :
    segs (joinSegs ((segs path).take k)) = (segs path).take k := by
  apply segs_joinSegs
  · rw [ne_eq, List.take_eq_nil_iff]
    rintro (rfl | habs)
    · omega
    · exact segs_ne_nil path habs
  · intro s hs
    exact slash_not_mem_of_mem_segs (List.mem_of_mem_take hs)

theorem parent_mem_folderList {items : List GitHubTreeItem} {p : String}
    (hp : p ∈ folderList items) (h2 : 2 ≤ (segs p).length) :
    parentOf p ∈ folderList items := by
  obtain ⟨it, hit, hpref⟩ := mem_folderList.mp hp
  obtain ⟨i, hi, rfl⟩ := mem_properPrefs.mp hpref
  have hround := segs_joinSegs_take it.path (i + 1) (by omega)
  have hlen1 : (segs it.path).length ≥ 1 := by
    have := segs_ne_nil it.path
    cases hs : segs it.path with
    | nil => exact absurd hs this
    | cons a t => simp
  have htakelen : ((segs it.path).take (i + 1)).length = i + 1 := by
    rw [List.length_take]
    omega
  have hk2 : 2 ≤ i + 1 := by
    rw [hround, htakelen] at h2
    omega
  unfold parentOf
  rw [hround]
  show (if (List.take (i + 1) (segs it.path)).length > 1
      then joinSegs ((List.take (i + 1) (segs it.path)).dropLast)
      else ".") ∈ folderList items
  rw [htakelen, if_pos (by omega)]
  have hdrop : ((segs it.path).take (i + 1)).dropLast = (segs it.path).take i := by
    rw [List.dropLast_eq_take, htakelen, List.take_take]
    congr 1
    omega
  rw [hdrop]
  refine mem_folderList.mpr ⟨it, hit, mem_properPrefs.mpr ⟨i - 1, by omega, ?_⟩⟩
  congr 2
  omega

/-- The ids of the non-root nodes emitted by `buildGraph`, in emission
order: the collected folder paths, then the paths of the blob entries. -/
def nonRootIds (items : List GitHubTreeItem) : List String :=
  folderList items ++
    (items.filter (fun it => it.type == "blob")).map GitHubTreeItem.path

theorem buildGraph_nodes_eq (items : List GitHubTreeItem) :
    (buildGraph items).nodes =
      rootNode :: ((folderList items).map mkFolderNode ++
        (items.filter (fun it => it.type == "blob")).map mkFileNode) := rfl

theorem buildGraph_links_eq (items : List GitHubTreeItem) :
    (buildGraph items).links =
      (folderList items).map hierLink ++
        (items.filter (fun it => it.type == "blob")).map
          (fun it => hierLink it.path) := rfl

theorem buildGraph_ids (items : List GitHubTreeItem) :
    (buildGraph items).nodes.map GraphNode.id = "." :: nonRootIds items := by
  rw [buildGraph_nodes_eq, List.map_cons, List.map_append, List.map_map,
    List.map_map]
  have h1 : (GraphNode.id ∘ mkFolderNode) = fun p => p := funext fun p => rfl
  have h2 : (GraphNode.id ∘ mkFileNode) = GitHubTreeItem.path :=
    funext fun it => rfl
  rw [h1, h2, List.map_id']
  rfl

theorem hierInDegree_buildGraph (items : List GitHubTreeItem) (t : String) :
    hierInDegree (buildGraph items) t = (nonRootIds items).count t := by
  unfold hierInDegree
  rw [buildGraph_links_eq, ← List.countP_eq_length_filter, List.countP_append,
    List.countP_map, List.countP_map]
  have h1 : ((fun l => l.type == LinkKind.hierarchy && l.target == t) ∘ hierLink) =
      fun x => x == t := by
    funext x
    simp [hierLink]
  have h2 : ((fun l => l.type == LinkKind.hierarchy && l.target == t) ∘
      (fun (it : GitHubTreeItem) => hierLink it.path)) =
      fun (it : GitHubTreeItem) => it.path == t := by
    funext it
    simp [hierLink]
  rw [h1, h2]
  unfold nonRootIds
  rw [List.count_append, List.count_eq_countP, List.count_eq_countP,
    List.countP_map]
  rfl

theorem buildGraph_node_cases {items : List GitHubTreeItem} {n : GraphNode}
    (hn : n ∈ (buildGraph items).nodes) :
    n = rootNode ∨ (∃ p ∈ folderList items, n = mkFolderNode p) ∨
      (∃ it ∈ items.filter (fun it => it.type == "blob"), n = mkFileNode it) := by
  rw [buildGraph_nodes_eq] at hn
  rcases List.mem_cons.mp hn with rfl | hn'
  · exact Or.inl rfl
  · rcases List.mem_append.mp hn' with h | h
    · obtain ⟨p, hp, rfl⟩ := List.mem_map.mp h
      exact Or.inr (Or.inl ⟨p, hp, rfl⟩)
    · obtain ⟨it, hit, rfl⟩ := List.mem_map.mp h
      exact Or.inr (Or.inr ⟨it, hit, rfl⟩)

theorem parentOf_of_short {p : String} (h : ¬ (segs p).length > 1) :
    parentOf p = "." := by
  unfold parentOf
  rw [if_neg h]

theorem rootNode_mem (items : List GitHubTreeItem) :
    rootNode ∈ (buildGraph items).nodes := by
  rw [buildGraph_nodes_eq]
  exact List.mem_cons_self _ _

theorem mkFolderNode_mem {items : List GitHubTreeItem} {p : String}
    (hp : p ∈ folderList items) : mkFolderNode p ∈ (buildGraph items).nodes := by
  rw [buildGraph_nodes_eq]
  exact List.mem_cons_of_mem _ (List.mem_append_left _ (List.mem_map_of_mem _ hp))

theorem filePath_parent_mem_folderList {items : List GitHubTreeItem}
    {it : GitHubTreeItem} (hit : it ∈ items)
    (hlen : (segs it.path).length > 1) : parentOf it.path ∈ folderList items := by
  unfold parentOf
  rw [if_pos hlen]
  refine mem_folderList.mpr ⟨it, hit, mem_properPrefs.mpr
    ⟨(segs it.path).length - 2, by omega, ?_⟩⟩
  rw [List.dropLast_eq_take]
  congr 2
  omega

/-- C1 (amended): for every entry list, every emitted non-root node's
parent-prefix path (`parentOf`) exists as a node id — this part holds
unconditionally — and, provided the emitted node ids are pairwise
distinct, every non-root node has exactly one incoming hierarchy edge and
the root node has none. (The pairwise-distinctness proviso is forced: an
entry list repeating the same blob path emits duplicate node ids and
gives that id two incoming hierarchy edges.) -/
theorem buildGraph_hierarchy_tree (items : List GitHubTreeItem) :
    (∀ n ∈ (buildGraph items).nodes, n.id ≠ "." →
      ∃ n' ∈ (buildGraph items).nodes, n'.id = parentOf n.path) ∧
    (((buildGraph items).nodes.map GraphNode.id).Nodup →
      (∀ n ∈ (buildGraph items).nodes, n.id ≠ "." →
        hierInDegree (buildGraph items) n.id = 1) ∧
      hierInDegree (buildGraph items) "." = 0) := by
  constructor
  · intro n hn _
    rcases buildGraph_node_cases hn with rfl | ⟨p, hp, rfl⟩ | ⟨it, hit, rfl⟩
    · exact ⟨rootNode, rootNode_mem items, by rw [parentOf_of_short (by decide)]; rfl⟩
    · by_cases hlen : (segs p).length > 1
      · exact ⟨mkFolderNode (parentOf p),
          mkFolderNode_mem (parent_mem_folderList hp (by omega)), rfl⟩
      · exact ⟨rootNode, rootNode_mem items, (parentOf_of_short hlen).symm⟩
    · by_cases hlen : (segs it.path).length > 1
      · exact ⟨mkFolderNode (parentOf it.path),
          mkFolderNode_mem
            (filePath_parent_mem_folderList (List.mem_filter.mp hit).1 hlen),
          rfl⟩
      · exact ⟨rootNode, rootNode_mem items, (parentOf_of_short hlen).symm⟩
  · intro hnodup
    rw [buildGraph_ids] at hnodup
    have hnd := List.nodup_cons.mp hnodup
    constructor
    · intro n hn hne
      rw [hierInDegree_buildGraph]
      apply List.count_eq_one_of_mem hnd.2
      rcases buildGraph_node_cases hn with rfl | ⟨p, hp, rfl⟩ | ⟨it, hit, rfl⟩
      · exact absurd rfl hne
      · exact List.mem_append_left _ hp
      · exact List.mem_append_right _ (List.mem_map_of_mem _ hit)
    · rw [hierInDegree_buildGraph]
      exact List.count_eq_zero_of_not_mem hnd.1

theorem buildGraph_hierarchy_tree_witness :
    hierInDegree (buildGraph [GitHubTreeItem.mk "src/a.ts" "blob" none]) "src" = 1 ∧
    hierInDegree (buildGraph [GitHubTreeItem.mk "src/a.ts" "blob" none]) "." = 0 ∧
    (∃ n' ∈ (buildGraph [GitHubTreeItem.mk "src/a.ts" "blob" none]).nodes,
      n'.id = parentOf
        (mkFileNode (GitHubTreeItem.mk "src/a.ts" "blob" none)).path) := by
  have h := buildGraph_hierarchy_tree [GitHubTreeItem.mk "src/a.ts" "blob" none]
  have h2 := h.2 (by decide)
  exact ⟨h2.1 (mkFolderNode "src") (by decide) (by decide), h2.2,
    h.1 (mkFileNode (GitHubTreeItem.mk "src/a.ts" "blob" none))
      (by decide) (by decide)⟩

/-- C1 counterexample: the claim's universally-quantified tree property is
false — for the entry list repeating the blob path `a`, the (duplicated)
non-root node with id `a` has two incoming hierarchy edges, not exactly
one. -/
theorem buildGraph_duplicate_path_two_incoming :
    ¬ (∀ items : List GitHubTreeItem,
        (∀ n ∈ (buildGraph items).nodes, n.id ≠ "." →
          ∃ n' ∈ (buildGraph items).nodes, n'.id = parentOf n.path) ∧
        (∀ n ∈ (buildGraph items).nodes, n.id ≠ "." →
          hierInDegree (buildGraph items) n.id = 1) ∧
        hierInDegree (buildGraph items) "." = 0) := by
  intro h
  have := (h [GitHubTreeItem.mk "a" "blob" none,
      GitHubTreeItem.mk "a" "blob" none]).2.1
    (mkFileNode (GitHubTreeItem.mk "a" "blob" none)) (by decide) (by decide)
  exact absurd this (by decide)

/-- C8 (amended): a `tree` entry's path is guaranteed to appear as a
folder node only when it is covered by the folder-prefix derivation, i.e.
when it equals a non-empty proper segment-prefix of some entry's path; in
that case `buildGraph` emits a folder node with that id. (The proviso is
forced: a `tree` entry none of whose descendants are listed — e.g. a lone
`tree` entry `a` — produces no node at all.) -/
theorem buildGraph_tree_entry_covered_node (items : List GitHubTreeItem)
    (it : GitHubTreeItem) (_hmem : it ∈ items) (_hty : it.type = "tree")
    (hcov : ∃ it' ∈ items, ∃ k, 1 ≤ k ∧ k < (segs it'.path).length ∧
      it.path = joinSegs ((segs it'.path).take k)) :
    ∃ n ∈ (buildGraph items).nodes, n.id = it.path ∧ n.type = NodeKind.folder := by
  obtain ⟨it', hit', k, hk1, hk2, heq⟩ := hcov
  have hfold : it.path ∈ folderList items :=
    mem_folderList.mpr ⟨it', hit', mem_properPrefs.mpr
      ⟨k - 1, by omega, by rw [heq]; congr 2; omega⟩⟩
  exact ⟨mkFolderNode it.path, mkFolderNode_mem hfold, rfl, rfl⟩

theorem buildGraph_tree_entry_covered_node_witness :
    ∃ n ∈ (buildGraph [GitHubTreeItem.mk "a" "tree" none,
        GitHubTreeItem.mk "a/b.ts" "blob" none]).nodes,
      n.id = (GitHubTreeItem.mk "a" "tree" none).path ∧
        n.type = NodeKind.folder :=
  buildGraph_tree_entry_covered_node
    [GitHubTreeItem.mk "a" "tree" none, GitHubTreeItem.mk "a/b.ts" "blob" none]
    (GitHubTreeItem.mk "a" "tree" none) (by decide) rfl
    ⟨GitHubTreeItem.mk "a/b.ts" "blob" none, by decide, 1, by decide, by decide,
      by decide⟩

/-- C8 counterexample: a lone `tree` entry is not covered by the proper-
prefix derivation — `buildGraph` applied to the single `tree` entry `a`
contains no node with id `a` (only the root), refuting the claim as
stated. -/
theorem buildGraph_bare_tree_entry_missing :
    ¬ (∀ items : List GitHubTreeItem, ∀ it ∈ items, it.type = "tree" →
        ∃ n ∈ (buildGraph items).nodes, n.id = it.path) := by
  intro h
  exact absurd
    (h [GitHubTreeItem.mk "a" "tree" none]
      (GitHubTreeItem.mk "a" "tree" none) (by decide) rfl)
    (by decide)

end Structura
